import Mathlib

/-!
Shallow embedding of the Ollama backend-protocol adapter of `gemini-cli-ollama`
(packages/core/src/core/ollamaContentGenerator.ts and its earlier revision,
packages/core/src/core/tokenLimits.ts, packages/core/src/core/ollamaTokenLimits.ts,
packages/cli/src/config/ollamaDiscovery.ts), together with proofs about the
payload governor, tool-call deduplication, chat-message translation, the
NDJSON streaming decoder, usage accounting, context-length resolution and
token limits.

JS strings are modelled as lists of characters (`Str`); JS numbers appearing
as byte budgets are modelled as rationals (JS floats form a subset of ℚ, and
all comparisons performed by the code compare integer string lengths against
such budgets).  JSON numbers are modelled as integers, which covers every
numeric field the adapter reads (token counts, context lengths).
-/

namespace OllamaAdapter

/-- JS strings, modelled as lists of characters. -/
abbrev Str := List Char

/-- Character list of a Lean string literal. -/
def chars (s : String) : Str := s.data

/-- `s.split('\n')` of JS: the list of newline-separated pieces.
Never returns the empty list. -/
def splitNl : Str → List Str
  | [] => [[]]
  | c :: rest =>
    if c = '\n' then [] :: splitNl rest
    else
      match splitNl rest with
      | [] => [[c]]
      | h :: t => (c :: h) :: t

/-- `lines.join('\n')` of JS. -/
def intercalateNl : List Str → Str
  | [] => []
  | [l] => l
  | l :: l' :: rest => l ++ '\n' :: intercalateNl (l' :: rest)

/-- `s.toLowerCase()` (ASCII case folding, which covers every pattern
the adapter matches). -/
def lowerStr (s : Str) : Str := s.map Char.toLower

/-- `s.includes(pat)`: substring containment. -/
def hasSubstr : Str → Str → Bool
  | [], pat => pat.isEmpty
  | c :: rest, pat => pat.isPrefixOf (c :: rest) || hasSubstr rest pat

/-- Whitespace class used by JS `trim()` and `\s` (modelled by
`Char.isWhitespace`). -/
def jsWs (c : Char) : Bool := c.isWhitespace

/-- `s.trim()` of JS. -/
def jsTrim (s : Str) : Str :=
  ((s.dropWhile jsWs).reverse.dropWhile jsWs).reverse

/-- Truthiness of `s.trim()`: does the line contain a non-whitespace char. -/
def hasNonWs (s : Str) : Bool := s.any (fun c => !jsWs c)

/-- `l.slice(-n)` of JS: the last `n` elements. -/
def takeLast {α : Type} (n : Nat) (l : List α) : List α := l.drop (l.length - n)

/-! ## JSON values

`JSON.parse` / `JSON.stringify` as used by the adapter for tool-call
arguments and stream records.  Numbers are modelled as integers. -/

inductive JsonValue : Type where
  | null : JsonValue
  | bool (b : Bool) : JsonValue
  | num (n : Int) : JsonValue
  | str (s : Str) : JsonValue
  | arr (elems : List JsonValue) : JsonValue
  | obj (fields : List (Str × JsonValue)) : JsonValue

/-- JS truthiness of a JSON value. -/
def jsTruthy : JsonValue → Bool
  | .null => false
  | .bool b => b
  | .num n => n != 0
  | .str s => !s.isEmpty
  | .arr _ => true
  | .obj _ => true

/-- Field access `v.k` on a parsed JSON value: `none` when `v` is not an
object or lacks the key. -/
def objField (v : JsonValue) (k : Str) : Option JsonValue :=
  match v with
  | .obj fields => fields.lookup k
  | _ => none

def hexDigitChar (n : Nat) : Char :=
  if n < 10 then Char.ofNat ('0'.toNat + n) else Char.ofNat ('a'.toNat + n - 10)

def hex4 (n : Nat) : Str :=
  [hexDigitChar (n / 4096 % 16), hexDigitChar (n / 256 % 16),
   hexDigitChar (n / 16 % 16), hexDigitChar (n % 16)]

/-- `JSON.stringify` escaping of one string character.  (The rare legacy
short escapes `\b`/`\f` are emitted in `\u00XX` form; this does not affect
any equality between two stringified values.) -/
def escJsonChar (c : Char) : Str :=
  if c = '"' then chars "\\\""
  else if c = '\\' then chars "\\\\"
  else if c = '\n' then chars "\\n"
  else if c = '\r' then chars "\\r"
  else if c = '\t' then chars "\\t"
  else if c.toNat < 32 then chars "\\u" ++ hex4 c.toNat
  else [c]

def escJsonStr (s : Str) : Str := (s.map escJsonChar).flatten

mutual
/-- `JSON.stringify(v)` (no spacing), with object fields in insertion
order — exactly as V8 serializes a plain object. -/
def jsonStringify : JsonValue → Str
  | .null => chars "null"
  | .bool true => chars "true"
  | .bool false => chars "false"
  | .num n => chars (toString n)
  | .str s => '"' :: escJsonStr s ++ ['"']
  | .arr elems => '[' :: jsonStringifyArr elems ++ [']']
  | .obj fields => '\x7b' :: jsonStringifyObj fields ++ ['\x7d']

def jsonStringifyArr : List JsonValue → Str
  | [] => []
  | [v] => jsonStringify v
  | v :: v' :: rest => jsonStringify v ++ ',' :: jsonStringifyArr (v' :: rest)

def jsonStringifyObj : List (Str × JsonValue) → Str
  | [] => []
  | [(k, v)] => '"' :: escJsonStr k ++ '"' :: ':' :: jsonStringify v
  | (k, v) :: f :: rest =>
    '"' :: escJsonStr k ++ '"' :: ':' :: jsonStringify v ++ ',' :: jsonStringifyObj (f :: rest)
end

mutual
/-- `String(v)` coercion of JS (used by `+=` and template literals). -/
def jsCoerce : JsonValue → Str
  | .null => chars "null"
  | .bool true => chars "true"
  | .bool false => chars "false"
  | .num n => chars (toString n)
  | .str s => s
  | .arr elems => jsCoerceArr elems
  | .obj _ => chars "[object Object]"

def jsCoerceArr : List JsonValue → Str
  | [] => []
  | [v] => jsCoerce v
  | v :: v' :: rest => jsCoerce v ++ ',' :: jsCoerceArr (v' :: rest)
end

/-- `parseInt(s, 10)`: leading whitespace, optional sign, leading digits. -/
def digitsToNat (ds : Str) : Nat :=
  ds.foldl (fun acc c => acc * 10 + (c.toNat - '0'.toNat)) 0

def jsParseInt (s : Str) : Option Int :=
  let t := s.dropWhile jsWs
  let (sign, t) : Int × Str :=
    match t with
    | '-' :: rest => (-1, rest)
    | '+' :: rest => (1, rest)
    | _ => (1, t)
  let ds := t.takeWhile Char.isDigit
  if ds.isEmpty then none else some (sign * (digitsToNat ds : Int))

def skipJsonWs (s : Str) : Str :=
  s.dropWhile (fun c => c = ' ' || c = '\t' || c = '\n' || c = '\r')

/-- One JSON string body (after the opening quote), returning the decoded
characters and the remainder after the closing quote. -/
def pjStringBody : Str → Option (Str × Str)
  | [] => none
  | '"' :: rest => some ([], rest)
  | '\\' :: e :: rest =>
    (match e with
     | '"' => (pjStringBody rest).map (fun (s, r) => ('"' :: s, r))
     | '\\' => (pjStringBody rest).map (fun (s, r) => ('\\' :: s, r))
     | '/' => (pjStringBody rest).map (fun (s, r) => ('/' :: s, r))
     | 'n' => (pjStringBody rest).map (fun (s, r) => ('\n' :: s, r))
     | 't' => (pjStringBody rest).map (fun (s, r) => ('\t' :: s, r))
     | 'r' => (pjStringBody rest).map (fun (s, r) => ('\r' :: s, r))
     | 'b' => (pjStringBody rest).map (fun (s, r) => ('\x08' :: s, r))
     | 'f' => (pjStringBody rest).map (fun (s, r) => ('\x0c' :: s, r))
     | 'u' =>
       match rest with
       | h1 :: h2 :: h3 :: h4 :: rest' =>
         let hv (c : Char) : Option Nat :=
           if c.isDigit then some (c.toNat - '0'.toNat)
           else if 'a' ≤ c ∧ c ≤ 'f' then some (c.toNat - 'a'.toNat + 10)
           else if 'A' ≤ c ∧ c ≤ 'F' then some (c.toNat - 'A'.toNat + 10)
           else none
         match hv h1, hv h2, hv h3, hv h4 with
         | some a, some b, some c, some d =>
           (pjStringBody rest').map
             (fun (s, r) => (Char.ofNat (a * 4096 + b * 256 + c * 16 + d) :: s, r))
         | _, _, _, _ => none
       | _ => none
     | _ => none)
  | c :: rest => (pjStringBody rest).map (fun (s, r) => (c :: s, r))

/-- JSON integer literal (fractions/exponents are rejected: the adapter only
ever reads integral fields). -/
def pjNumber (s : Str) : Option (Int × Str) :=
  let (sign, t) : Int × Str :=
    match s with
    | '-' :: rest => (-1, rest)
    | _ => (1, s)
  let ds := t.takeWhile Char.isDigit
  let rest := t.dropWhile Char.isDigit
  if ds.isEmpty then none
  else
    match rest with
    | '.' :: _ => none
    | 'e' :: _ => none
    | 'E' :: _ => none
    | _ => some (sign * (digitsToNat ds : Int), rest)

mutual
/-- Fuel-indexed recursive-descent JSON parser (`JSON.parse`). -/
def pjValue : Nat → Str → Option (JsonValue × Str)
  | 0, _ => none
  | fuel + 1, s =>
    let s := skipJsonWs s
    if (chars "null").isPrefixOf s then some (.null, s.drop 4)
    else if (chars "true").isPrefixOf s then some (.bool true, s.drop 4)
    else if (chars "false").isPrefixOf s then some (.bool false, s.drop 5)
    else
      match s with
      | '"' :: rest => (pjStringBody rest).map (fun (body, r) => (.str body, r))
      | '[' :: rest =>
        (match skipJsonWs rest with
         | ']' :: r => some (.arr [], r)
         | _ => (pjArrayItems fuel rest).map (fun (es, r) => (.arr es, r)))
      | '\x7b' :: rest =>
        (match skipJsonWs rest with
         | '\x7d' :: r => some (.obj [], r)
         | _ => (pjObjFields fuel rest).map (fun (fs, r) => (.obj fs, r)))
      | _ => (pjNumber s).map (fun (n, r) => (.num n, r))

def pjArrayItems : Nat → Str → Option (List JsonValue × Str)
  | 0, _ => none
  | fuel + 1, s => do
    let (v, r) ← pjValue fuel s
    match skipJsonWs r with
    | ',' :: r' => do
      let (vs, r'') ← pjArrayItems fuel r'
      pure (v :: vs, r'')
    | ']' :: r' => pure ([v], r')
    | _ => none

def pjObjFields : Nat → Str → Option (List (Str × JsonValue) × Str)
  | 0, _ => none
  | fuel + 1, s =>
    match skipJsonWs s with
    | '"' :: rest => do
      let (k, r) ← pjStringBody rest
      match skipJsonWs r with
      | ':' :: r' => do
        let (v, r'') ← pjValue fuel r'
        match skipJsonWs r'' with
        | ',' :: r3 => do
          let (fs, r4) ← pjObjFields fuel r3
          pure ((k, v) :: fs, r4)
        | '\x7d' :: r3 => pure ([(k, v)], r3)
        | _ => none
      | _ => none
    | _ => none
end

/-- `JSON.parse(s)`, requiring the whole input to be consumed. -/
def parseJson (s : Str) : Option JsonValue :=
  match pjValue (2 * s.length + 2) s with
  | some (v, rest) => if (skipJsonWs rest).isEmpty then some v else none
  | none => none

/-! ## Tool calls (`OllamaToolCall`) -/

/-- `function.arguments`: "Can be string or object" per the adapter's
interface declaration. -/
inductive ToolArgs : Type where
  | argStr (s : Str) : ToolArgs
  | argObj (fields : List (Str × JsonValue)) : ToolArgs

structure ToolCallFunction where
  name : Str
  arguments : ToolArgs

structure OllamaToolCall where
  id : Option Str := none
  function : ToolCallFunction

/-- The argument-resolution step of tool-call extraction:
`typeof arguments === 'string' ? JSON.parse(arguments || '{}') : arguments || {}`,
with the `catch` branch producing `{}`. -/
def resolveToolArgs : ToolArgs → JsonValue
  | .argStr s =>
    match parseJson (if s.isEmpty then chars "\x7b\x7d" else s) with
    | some v => v
    | none => .obj []
  | .argObj fields => .obj fields

/-- `` `${name}:${JSON.stringify(args)}` ``: the dedup signature of a
tool-call descriptor. -/
def callSignature (tc : OllamaToolCall) : Str :=
  tc.function.name ++ ':' :: jsonStringify (resolveToolArgs tc.function.arguments)

/-! ## Message and response shapes -/

inductive MsgRole : Type where
  | system | user | assistant | tool
deriving DecidableEq

/-- A backend chat message (`OllamaChatMessage`). -/
structure OllamaChatMessage where
  role : MsgRole
  content : Str
  tool_calls : Option (List OllamaToolCall) := none

/-- `/api/chat` response record (fields the adapter reads). -/
structure OllamaChatResponse where
  message : OllamaChatMessage
  done : Bool
  tool_calls : Option (List OllamaToolCall) := none
  prompt_eval_count : Option Nat := none
  eval_count : Option Nat := none

/-- `/api/generate` response record (fields the adapter reads). -/
structure OllamaGenerateResponse where
  response : Str
  done : Bool
  tool_calls : Option (List OllamaToolCall) := none
  prompt_eval_count : Option Nat := none
  eval_count : Option Nat := none

/-- Unified-response output parts. -/
inductive GeminiPart : Type where
  | text (t : Str) : GeminiPart
  | functionCall (id : Option Str) (name : Str) (args : JsonValue) : GeminiPart

inductive GFinishReason : Type where
  | stop
deriving DecidableEq

structure UsageMetadata where
  promptTokenCount : Nat
  candidatesTokenCount : Nat
  totalTokenCount : Nat

structure GeminiCandidate where
  parts : List GeminiPart
  role : Str
  finishReason : Option GFinishReason

structure GenerateContentResponse where
  candidates : List GeminiCandidate
  usageMetadata : UsageMetadata

/-- `estimateTokenCount`: `if (!text) return 0; return Math.ceil(text.length / 4)`. -/
def estimateTokenCount (text : Str) : Nat :=
  if text.isEmpty then 0 else (text.length + 3) / 4

/-- JS `x || d` on an optional numeric field (absent or zero falls back). -/
def jsOrNat (x : Option Nat) (d : Nat) : Nat :=
  match x with
  | some n => if n ≠ 0 then n else d
  | none => d

/-! ## Response normalizer and tool-call deduplicator -/

/-- The dedup loop of `ollamaChatToGeminiResponse` / `ollamaToGeminiResponse`:
a `Set` of already-seen signatures; descriptors whose signature was seen in
this response are dropped.  The `Date.now()`-based fallback id of a
descriptor without an id is nondeterministic and is modelled by keeping the
absent id. -/
def dedupToolCallsAux : List Str → List OllamaToolCall → List GeminiPart
  | _, [] => []
  | seen, tc :: rest =>
    let args := resolveToolArgs tc.function.arguments
    let sig := tc.function.name ++ ':' :: jsonStringify args
    if sig ∈ seen then dedupToolCallsAux seen rest
    else .functionCall tc.id tc.function.name args :: dedupToolCallsAux (sig :: seen) rest

def dedupToolCalls (tcs : List OllamaToolCall) : List GeminiPart :=
  dedupToolCallsAux [] tcs

/-- The signature a produced function-call part answers to. -/
def partSignature : GeminiPart → Option Str
  | .text _ => none
  | .functionCall _ name args => some (name ++ ':' :: jsonStringify args)

def isFunctionCallPart : GeminiPart → Bool
  | .functionCall _ _ _ => true
  | .text _ => false

/-- `ollamaResponse.message.tool_calls || ollamaResponse.tool_calls`
("check both message and response level"; an array, even empty, is truthy). -/
def effectiveToolCalls (r : OllamaChatResponse) : Option (List OllamaToolCall) :=
  match r.message.tool_calls with
  | some tcs => some tcs
  | none => r.tool_calls

/-- `ollamaChatToGeminiResponse` (current revision): prompt tokens fall back
to 0 (`prompt_eval_count || 0`); completion tokens fall back to an estimate
of the message content; tool calls are taken from the message or, failing
that, the response level, and deduplicated. -/
def ollamaChatToGeminiResponse (r : OllamaChatResponse) (fullPromptText : Option Str) :
    GenerateContentResponse :=
  let _ := fullPromptText  -- accepted and unused, as in the source
  let promptTokenCount := jsOrNat r.prompt_eval_count 0
  let candidatesTokenCount := jsOrNat r.eval_count (estimateTokenCount r.message.content)
  let textParts : List GeminiPart :=
    if !r.message.content.isEmpty then [.text r.message.content] else []
  let toolCalls : Option (List OllamaToolCall) := effectiveToolCalls r
  let fcParts : List GeminiPart :=
    match toolCalls with
    | some tcs => dedupToolCalls tcs
    | none => []
  { candidates := [{ parts := textParts ++ fcParts, role := chars "model",
                     finishReason := if r.done then some .stop else none }],
    usageMetadata := { promptTokenCount := promptTokenCount,
                       candidatesTokenCount := candidatesTokenCount,
                       totalTokenCount := promptTokenCount + candidatesTokenCount } }

/-- `ollamaToGeminiResponse`: prompt tokens fall back to an estimate of the
supplied full prompt text (0 when none was supplied). -/
def ollamaToGeminiResponse (r : OllamaGenerateResponse) (fullPromptText : Option Str) :
    GenerateContentResponse :=
  let promptTokenCount :=
    jsOrNat r.prompt_eval_count
      (match fullPromptText with
       | some t => estimateTokenCount t
       | none => 0)
  let candidatesTokenCount := jsOrNat r.eval_count (estimateTokenCount r.response)
  let textParts : List GeminiPart :=
    if !r.response.isEmpty then [.text r.response] else []
  let fcParts : List GeminiPart :=
    match r.tool_calls with
    | some tcs => dedupToolCalls tcs
    | none => []
  { candidates := [{ parts := textParts ++ fcParts, role := chars "model",
                     finishReason := if r.done then some .stop else none }],
    usageMetadata := { promptTokenCount := promptTokenCount,
                       candidatesTokenCount := candidatesTokenCount,
                       totalTokenCount := promptTokenCount + candidatesTokenCount } }

/-- The non-streaming `/api/generate` call, after a successful HTTP exchange:
a response with neither text (up to trimming) nor tool calls is a hard error. -/
def callGenerateAPIResult (r : OllamaGenerateResponse) (prompt : Str) :
    Except Str GenerateContentResponse :=
  if (jsTrim r.response).isEmpty &&
     (match r.tool_calls with
      | none => true
      | some tcs => tcs.isEmpty) then
    .error (chars "Ollama returned an empty response.")
  else
    .ok (ollamaToGeminiResponse r (some prompt))

/-- The non-streaming `/api/chat` call, after a successful HTTP exchange:
the parsed response is normalized unconditionally (there is no
empty-response check on this path). -/
def callChatAPIResult (r : OllamaChatResponse) : Except Str GenerateContentResponse :=
  .ok (ollamaChatToGeminiResponse r none)

/-! ## Request translator: `buildChatMessages` -/

/-- One part of a unified-request turn, as the translator distinguishes
them: a bare string, a `text` part, a `functionCall` part, or a
`functionResponse` part (whose `response` payload may be absent). -/
inductive GeminiRequestPart : Type where
  | rawStr (s : Str) : GeminiRequestPart
  | textPart (t : Str) : GeminiRequestPart
  | functionCallPart (id : Option Str) (name : Str) (args : List (Str × JsonValue)) :
      GeminiRequestPart
  | functionResponsePart (response : Option JsonValue) : GeminiRequestPart

/-- A unified-request turn (`Content`): a role string and an optional parts
array. -/
structure GeminiContent where
  role : Str
  parts : Option (List GeminiRequestPart)

/-- Text extracted from a `functionResponse.response` payload:
string payloads pass through; objects contribute `.output`, else
`Error: ${.error}`, else their JSON serialization; falsy payloads (absent,
`''`, `0`, `false`, `null`) contribute nothing. -/
def functionResponseText (resp : Option JsonValue) : Str :=
  match resp with
  | none => []
  | some v =>
    if !jsTruthy v then []
    else
      match v with
      | .str s => s
      | _ =>
        match objField v (chars "output") with
        | some out =>
          if jsTruthy out then jsCoerce out
          else
            match objField v (chars "error") with
            | some e => if jsTruthy e then chars "Error: " ++ jsCoerce e else jsonStringify v
            | none => jsonStringify v
        | none =>
          match objField v (chars "error") with
          | some e => if jsTruthy e then chars "Error: " ++ jsCoerce e else jsonStringify v
          | none => jsonStringify v

/-- Text contribution of one request part to `textContent`. -/
def partText : GeminiRequestPart → Str
  | .rawStr s => s
  | .textPart t => t
  | .functionCallPart _ _ _ => []
  | .functionResponsePart resp => functionResponseText resp

/-- The `functionCalls` accumulated from a turn's parts; the random
`call_${Date.now()}…` fallback for a missing id is modelled by keeping the
absent id. -/
def partFunctionCalls (parts : List GeminiRequestPart) : List OllamaToolCall :=
  parts.filterMap fun p =>
    match p with
    | .functionCallPart id name args =>
      some { id := id, function := { name := name, arguments := .argObj args } }
    | _ => none

def hasFunctionResponsePart (parts : List GeminiRequestPart) : Bool :=
  parts.any fun p =>
    match p with
    | .functionResponsePart _ => true
    | _ => false

/-- Does a turn contain a tool-result (`functionResponse`) part. -/
def isToolResultTurn (c : GeminiContent) : Bool :=
  match c.parts with
  | some parts => hasFunctionResponsePart parts
  | none => false

/-- Translation of one turn by `buildChatMessages`: a turn with a
`functionResponse` part becomes a `tool`-role message when its extracted
text is nonempty (and is dropped otherwise); any other turn becomes a
`user`/`assistant` message, kept when it has content or tool calls. -/
def translateContent (c : GeminiContent) : List OllamaChatMessage :=
  match c.parts with
  | none => []
  | some parts =>
    let textContent := (parts.map partText).flatten
    let functionCalls := partFunctionCalls parts
    if hasFunctionResponsePart parts then
      if !(jsTrim textContent).isEmpty then
        [{ role := .tool, content := jsTrim textContent }]
      else []
    else
      let role : MsgRole := if c.role = chars "model" then .assistant else .user
      let msg : OllamaChatMessage :=
        { role := role, content := jsTrim textContent,
          tool_calls := if !functionCalls.isEmpty then some functionCalls else none }
      if !(jsTrim textContent).isEmpty || !functionCalls.isEmpty then [msg] else []

/-- `buildChatMessages`: each turn is translated independently, in order. -/
def buildChatMessages (contents : List GeminiContent) : List OllamaChatMessage :=
  (contents.map translateContent).flatten

/-! ## Payload governor (earlier revision of the adapter)

Byte budgets are JS numbers; they are modelled as rationals, over which the
float comparisons against integer string lengths performed by the code are
exact. -/

/-- The high-value line patterns of `truncateContentForRequestSize`
(`importantPatterns`, all case-insensitive), disjoined with the short-line
test `line.length < 100`. -/
def isImportantLine (l : Str) : Bool :=
  let low := lowerStr l
  hasSubstr low (chars "current working directory") ||
  hasSubstr low (chars "today\x27s date") ||
  hasSubstr low (chars "operating system") ||
  (chars ".md").reverse.isPrefixOf low.reverse ||
  hasSubstr low (chars "error") || hasSubstr low (chars "warning") ||
  hasSubstr low (chars "failed") ||
  hasSubstr low (chars "command") || hasSubstr low (chars "tool") ||
  hasSubstr low (chars "function") ||
  decide (l.length < 100)

/-- `'\n\n[Content truncated to fit model request size limits]'`. -/
def truncationNotice : Str :=
  chars "\n\n[Content truncated to fit model request size limits]"

/-- The greedy append of the most recent regular lines: stop (break) as soon
as appending the next line would push past 90% of the budget. -/
def appendRecentRegular (maxSize : ℚ) : Str → List Str → Str
  | result, [] => result
  | result, l :: rest =>
    let testResult := result ++ '\n' :: l
    if (testResult.length : ℚ) > maxSize * (9 / 10) then result
    else appendRecentRegular maxSize testResult rest

/-- `truncateContentForRequestSize(content, maxSize)`. -/
def truncateContentForRequestSize (content : Str) (maxSize : ℚ) : Str :=
  if (content.length : ℚ) ≤ maxSize then content
  else
    let lines := splitNl content
    let importantLines := lines.filter isImportantLine
    let regularLines := lines.filter (fun l => !isImportantLine l)
    let result := appendRecentRegular maxSize (intercalateNl importantLines)
      (takeLast 10 regularLines)
    if result.length < content.length then result ++ truncationNotice else result

/-- `messages.reduce((total, msg) => total + (msg.content?.length || 0), 0)`. -/
def contentLengthSum (messages : List OllamaChatMessage) : Nat :=
  (messages.map (fun m => m.content.length)).sum

/-- `optimizeConversationForRequestSize(messages, maxSize)`. -/
def optimizeConversationForRequestSize (messages : List OllamaChatMessage) (maxSize : ℚ) :
    List OllamaChatMessage :=
  if messages.isEmpty then messages
  else if (contentLengthSum messages : ℚ) ≤ maxSize then messages
  else
    let recentMessages := takeLast 5 messages
    if (contentLengthSum recentMessages : ℚ) ≤ maxSize then recentMessages
    else
      match messages.getLast? with
      | some lastMessage =>
        if lastMessage.role = .user ∧ !lastMessage.content.isEmpty then
          [{ role := lastMessage.role,
             content := truncateContentForRequestSize lastMessage.content (maxSize * (8 / 10)) }]
        else takeLast 2 recentMessages
      | none => takeLast 2 recentMessages

/-! ## Streaming decoder (`callGenerateAPIStream`, current revision) -/

/-- A parsed stream record, projected to the fields the read loop consumes:
the incremental `response` fragment and the `done` flag. -/
structure GenStreamRecord where
  response : Str
  done : Bool
deriving DecidableEq

/-- Projection of a parsed JSON line onto the stream-record fields
(`.response` read as a string, anything else — including absence — being
falsy contributes no text; `.done` by truthiness). -/
def recordOfJson (v : JsonValue) : GenStreamRecord :=
  { response :=
      match objField v (chars "response") with
      | some (.str s) => s
      | _ => []
    done :=
      match objField v (chars "done") with
      | some j => jsTruthy j
      | none => false }

def parseStreamLine (l : Str) : Option GenStreamRecord :=
  (parseJson l).map recordOfJson

/-- Processing of the complete lines of one read: skip blank lines, skip
unparsable lines with a warning, and `break` out of the batch after a
record with `done` set. -/
def processBatch : List Str → List GenStreamRecord
  | [] => []
  | l :: rest =>
    if hasNonWs l then
      match parseStreamLine l with
      | some r => r :: (if r.done then [] else processBatch rest)
      | none => processBatch rest
    else processBatch rest

/-- The decoder's read loop: append the chunk to the buffer, split on
newlines, retain the trailing piece as the new buffer, process the complete
lines; at end of stream the remaining buffer is discarded. -/
def drainChunks (buffer : Str) : List Str → List GenStreamRecord
  | [] => []
  | c :: cs =>
    let pieces := splitNl (buffer ++ c)
    processBatch pieces.dropLast ++ drainChunks ((pieces.getLast?).getD []) cs

/-- The full streaming decode of a chunked response body. -/
def decodeGenerateStream (chunks : List Str) : List GenStreamRecord :=
  drainChunks [] chunks

/-- Replacement of the first candidate's first text part by the record's own
incremental fragment ("only send the new incremental content"). -/
def setFirstTextPart (resp : GenerateContentResponse) (t : Str) : GenerateContentResponse :=
  match resp.candidates with
  | cand :: restCands =>
    match cand.parts with
    | .text _ :: restParts =>
      { resp with candidates := { cand with parts := .text t :: restParts } :: restCands }
    | _ => resp
  | [] => resp

/-- The per-record yield logic of `callGenerateAPIStream`: a record with a
nonempty `response` yields one event carrying that record's fragment; a
record with `done` set ends the stream. -/
def generateStreamEvents (prompt : Str) : List OllamaGenerateResponse →
    List GenerateContentResponse
  | [] => []
  | r :: rest =>
    (if !r.response.isEmpty then
      [setFirstTextPart (ollamaToGeminiResponse r (some prompt)) r.response]
    else []) ++
    (if r.done then [] else generateStreamEvents prompt rest)

/-- The text carried by a unified response (concatenation of the first
candidate's text parts); for a streamed event this is its incremental text
delta. -/
def candidateText (resp : GenerateContentResponse) : Str :=
  match resp.candidates with
  | cand :: _ =>
    (cand.parts.map fun p =>
      match p with
      | .text t => t
      | .functionCall _ _ _ => []).flatten
  | [] => []

/-- The synthetic streamed backend output for a list of fragments: one
record per fragment, `done` set only on the last. -/
def mkStreamRecords : List Str → List OllamaGenerateResponse
  | [] => []
  | [f] => [{ response := f, done := true }]
  | f :: f' :: rest => { response := f, done := false } :: mkStreamRecords (f' :: rest)

/-- The equivalent buffered backend output: one record carrying the full
text. -/
def mkBufferedRecord (fragments : List Str) : OllamaGenerateResponse :=
  { response := fragments.flatten, done := true }

/-! ## Context-length resolution (`extractContextLength`, discovery) -/

structure OllamaShowDetails where
  parameter_size : Option Str

/-- `/api/show` response as the resolver consumes it (`modelfile` is a
string, `''` standing for an absent blob as the code tests truthiness). -/
structure OllamaShowResponse where
  model_info : List (Str × JsonValue)
  modelfile : Str
  details : Option OllamaShowDetails

/-- The `model_info` scan: any key ending in `context_length`, with a
numeric or numeric-string value that parses to a positive integer. -/
def contextFromModelInfo : List (Str × JsonValue) → Option Int
  | [] => none
  | (k, v) :: rest =>
    if (chars "context_length").reverse.isPrefixOf k.reverse then
      let cl : Option Int :=
        match v with
        | .num n => some n
        | _ => jsParseInt (jsCoerce v)
      match cl with
      | some n => if n > 0 then some n else contextFromModelInfo rest
      | none => contextFromModelInfo rest
    else contextFromModelInfo rest

/-- Case-insensitive literal match at the head of the input. -/
def dropCI (pat : Str) (s : Str) : Option Str :=
  if lowerStr (s.take pat.length) = pat ∧ pat.length ≤ s.length then
    some (s.drop pat.length)
  else none

/-- `\s+`: at least one whitespace character. -/
def dropWs1 : Str → Option Str
  | [] => none
  | c :: rest => if jsWs c then some (rest.dropWhile jsWs) else none

/-- One attempt of `/PARAMETER\s+num_ctx\s+(\d+)/i` anchored at the current
position, returning the captured digits' value. -/
def matchNumCtxAt (s : Str) : Option Nat := do
  let s1 ← dropCI (chars "parameter") s
  let s2 ← dropWs1 s1
  let s3 ← dropCI (chars "num_ctx") s2
  let s4 ← dropWs1 s3
  let ds := s4.takeWhile Char.isDigit
  if ds.isEmpty then none else some (digitsToNat ds)

/-- `modelfile.match(/PARAMETER\s+num_ctx\s+(\d+)/i)`: first position where
the directive matches. -/
def findNumCtx : Str → Option Nat
  | [] => none
  | c :: rest =>
    match matchNumCtxAt (c :: rest) with
    | some n => some n
    | none => findNumCtx rest

/-- The parameter-size tier fallback: case-sensitive substring tests on the
declared `parameter_size`. -/
def parameterSizeTier (parameterSize : Str) : Int :=
  if hasSubstr parameterSize (chars "70b") || hasSubstr parameterSize (chars "72b") then 32768
  else if hasSubstr parameterSize (chars "13b") || hasSubstr parameterSize (chars "34b") then 16384
  else if hasSubstr parameterSize (chars "7b") || hasSubstr parameterSize (chars "8b") then 8192
  else 4096

/-- The modelfile step: a positive `num_ctx` directive parsed out of a
nonempty modelfile blob. -/
def modelfileContextDirective (modelInfo : OllamaShowResponse) : Option Int :=
  if !modelInfo.modelfile.isEmpty then
    match findNumCtx modelInfo.modelfile with
    | some n => if (n : Int) > 0 then some (n : Int) else none
    | none => none
  else none

/-- `modelInfo.details?.parameter_size || ''`. -/
def declaredParameterSize (modelInfo : OllamaShowResponse) : Str :=
  match modelInfo.details with
  | some d => d.parameter_size.getD []
  | none => []

/-- `extractContextLength(modelInfo)` of the discovery module: `model_info`
scan, then the modelfile `num_ctx` directive, then the parameter-size tier.
Total by construction — the resolver never raises to its caller. -/
def extractContextLength (modelInfo : OllamaShowResponse) : Int :=
  match contextFromModelInfo modelInfo.model_info with
  | some n => n
  | none =>
    match modelfileContextDirective modelInfo with
    | some n => n
    | none => parameterSizeTier (declaredParameterSize modelInfo)

/-! ## Token limits (`tokenLimits.ts` / `ollamaTokenLimits.ts`) -/

/-- `isOllamaModel`: not a Gemini-prefixed model name. -/
def isOllamaModel (modelName : Str) : Bool :=
  !((chars "gemini-").isPrefixOf modelName) &&
  !((chars "models/gemini-").isPrefixOf modelName)

/-- The process-wide context-length cache, modelled as an association list;
`Map.get`. -/
def getOllamaModelContextLength (cache : List (Str × Nat)) (modelName : Str) : Option Nat :=
  cache.lookup modelName

def DEFAULT_TOKEN_LIMIT : Nat := 1048576

/-- `tokenLimit(model)`: Ollama models consult the cache (a truthy cached
value wins, else 4096); Gemini-prefixed models take the Gemini switch, whose
every branch — the five known models and the default — yields 1 048 576. -/
def tokenLimit (cache : List (Str × Nat)) (model : Str) : Nat :=
  if isOllamaModel model then
    match getOllamaModelContextLength cache model with
    | some n => if n ≠ 0 then n else 4096
    | none => 4096
  else
    DEFAULT_TOKEN_LIMIT

/-! ## Derived observations used by the statements -/

/-- The raw text a turn's parts contribute (before trimming). -/
def turnText (c : GeminiContent) : Str :=
  ((c.parts.getD []).map partText).flatten

/-- Number of tool-call parts in the (single) candidate of a normalized
response. -/
def countFunctionCallParts (resp : GenerateContentResponse) : Nat :=
  match resp.candidates with
  | cand :: _ => (cand.parts.filter isFunctionCallPart).length
  | [] => 0

/-- The parts of a normalized response answering to a given tool-call
signature. -/
def partsWithSignature (resp : GenerateContentResponse) (sig : Str) : List GeminiPart :=
  match resp.candidates with
  | cand :: _ => cand.parts.filter (fun p => partSignature p = some sig)
  | [] => []

def exceptIsOk {ε α : Type} : Except ε α → Bool
  | .ok _ => true
  | .error _ => false

/-- One line of the stream as the read loop treats it: blank lines are
skipped, others go to `JSON.parse`. -/
def parseNonBlankLine (l : Str) : Option GenStreamRecord :=
  if hasNonWs l then parseStreamLine l else none

/-- The line does not decode to a record with the `done` flag set. -/
def notDoneLine (l : Str) : Prop :=
  ∀ r, parseNonBlankLine l = some r → r.done = false

/-- The line holds no newline character (NDJSON framing). -/
def nlFree (l : Str) : Bool := l.all (fun c => c ≠ '\n')

/-! ## Theorems -/

/-- C6: below the configured limit the Payload Governor is the identity:
`truncateContentForRequestSize` returns any string of length ≤ `maxSize`
unchanged, and `optimizeConversationForRequestSize` returns any message list
of total content length ≤ `maxSize` unchanged. -/
theorem c6_governor_identity_below_limit :
    (∀ (content : Str) (maxSize : ℚ), (content.length : ℚ) ≤ maxSize →
      truncateContentForRequestSize content maxSize = content) ∧
    (∀ (messages : List OllamaChatMessage) (maxSize : ℚ),
      (contentLengthSum messages : ℚ) ≤ maxSize →
      optimizeConversationForRequestSize messages maxSize = messages) := by
  constructor
  · intro content maxSize h
    unfold truncateContentForRequestSize
    simp [h]
  · intro messages maxSize h
    unfold optimizeConversationForRequestSize
    by_cases he : messages.isEmpty <;> simp [he, h]

/-- Witness for C6 at a concrete string and message list. -/
theorem c6_governor_identity_below_limit_witness :
    truncateContentForRequestSize (chars "hi") 10 = chars "hi" ∧
    optimizeConversationForRequestSize [{ role := .user, content := chars "abc" }] 5 =
      [{ role := .user, content := chars "abc" }] :=
  ⟨c6_governor_identity_below_limit.1 (chars "hi") 10 (by norm_num [chars]),
   c6_governor_identity_below_limit.2 [{ role := .user, content := chars "abc" }] 5
     (by norm_num [contentLengthSum, chars])⟩

/-- C10: a non-Gemini-prefixed model name takes the cached context length
when a nonzero value is cached and 4096 otherwise, while a Gemini-prefixed
name yields a limit independent of the Ollama cache (it is never looked
up). -/
theorem c10_token_limit (model : Str) :
    ((chars "gemini-").isPrefixOf model = false →
     (chars "models/gemini-").isPrefixOf model = false →
     ∀ cache : List (Str × Nat),
       (∀ n, getOllamaModelContextLength cache model = some n → n ≠ 0 →
          tokenLimit cache model = n) ∧
       (getOllamaModelContextLength cache model = none ∨
          getOllamaModelContextLength cache model = some 0 →
          tokenLimit cache model = 4096)) ∧
    ((chars "gemini-").isPrefixOf model = true ∨
     (chars "models/gemini-").isPrefixOf model = true →
     ∀ cache cache' : List (Str × Nat), tokenLimit cache model = tokenLimit cache' model) := by
  constructor
  · intro h1 h2 cache
    have ho : isOllamaModel model = true := by simp [isOllamaModel, h1, h2]
    constructor
    · intro n hn hnz
      simp [tokenLimit, ho, hn, hnz]
    · rintro (hn | hn) <;> simp [tokenLimit, ho, hn]
  · intro h cache cache'
    have ho : isOllamaModel model = false := by
      rcases h with h | h <;> simp [isOllamaModel, h]
    simp [tokenLimit, ho]

/-- Witness for C10: a cached Ollama model, an uncached one, and a
Gemini-prefixed name under two different caches. -/
theorem c10_token_limit_witness :
    tokenLimit [(chars "llama3", 8192)] (chars "llama3") = 8192 ∧
    tokenLimit [] (chars "llama3") = 4096 ∧
    tokenLimit [(chars "gemini-pro", 8192)] (chars "gemini-pro") =
      tokenLimit [] (chars "gemini-pro") :=
  ⟨(((c10_token_limit (chars "llama3")).1 (by decide) (by decide)
      [(chars "llama3", 8192)]).1 8192 (by decide) (by decide)),
   (((c10_token_limit (chars "llama3")).1 (by decide) (by decide) []).2 (Or.inl (by decide))),
   ((c10_token_limit (chars "gemini-pro")).2 (Or.inl (by decide))
      [(chars "gemini-pro", 8192)] [])⟩

/-- C9 counterexample: a non-streaming chat-mode backend response with
neither text content nor tool calls does NOT fail — `callChatAPI` normalizes
it unconditionally into a unified response (with an empty candidate), unlike
`callGenerateAPI`, which does carry the empty-response check.  The claim
that every non-streaming call fails on such a response is therefore false on
the chat path. -/
theorem c9_counterexample :
    (jsTrim ({ message := { role := .assistant, content := [] }, done := true }
        : OllamaChatResponse).message.content).isEmpty = true ∧
    ({ message := { role := .assistant, content := [] }, done := true }
        : OllamaChatResponse).message.tool_calls = none ∧
    exceptIsOk (callChatAPIResult
      { message := { role := .assistant, content := [] }, done := true }) = true ∧
    candidateText (ollamaChatToGeminiResponse
      { message := { role := .assistant, content := [] }, done := true } none) = [] ∧
    countFunctionCallParts (ollamaChatToGeminiResponse
      { message := { role := .assistant, content := [] }, done := true } none) = 0 := by
  refine ⟨rfl, rfl, rfl, rfl, rfl⟩

/-- C9 amended: on the generate path a non-streaming response with no text
(up to trimming) and no tool calls is a hard error; the chat path returns a
normalized response unconditionally. -/
theorem c9_amended :
    (∀ (r : OllamaGenerateResponse) (prompt : Str),
       (jsTrim r.response).isEmpty = true → (r.tool_calls.getD []).isEmpty = true →
       exceptIsOk (callGenerateAPIResult r prompt) = false) ∧
    (∀ rc : OllamaChatResponse, exceptIsOk (callChatAPIResult rc) = true) := by
  constructor
  · intro r prompt h1 h2
    have h3 : (match r.tool_calls with
               | none => true
               | some tcs => tcs.isEmpty) = true := by
      cases h : r.tool_calls <;> simp_all
    simp [callGenerateAPIResult, h1, h3, exceptIsOk]
  · intro rc
    rfl

/-- Witness for C9 amended at concrete responses. -/
theorem c9_amended_witness :
    exceptIsOk (callGenerateAPIResult { response := chars "  ", done := true }
      (chars "prompt")) = false ∧
    exceptIsOk (callChatAPIResult
      { message := { role := .assistant, content := chars "ok" }, done := true }) = true :=
  ⟨c9_amended.1 { response := chars "  ", done := true } (chars "prompt")
      (by decide) (by decide),
   c9_amended.2 _⟩

/-- C8 counterexample: the chat-mode normalizer of the current revision
computes `prompt_eval_count || 0` — an absent backend prompt count yields 0
even though the prompt text is nonempty, not the claimed
⌈length/4⌉ estimate (which would be 3 for an 11-character prompt). -/
theorem c8_counterexample :
    (ollamaChatToGeminiResponse
      { message := { role := .assistant, content := chars "hello" }, done := true }
      (some (chars "hello world"))).usageMetadata.promptTokenCount = 0 ∧
    estimateTokenCount (chars "hello world") = 3 := by
  refine ⟨rfl, rfl⟩

/-- C8 amended: reported-and-nonzero backend counts are used as-is; an
absent or zero completion count falls back to ⌈content/4⌉; an absent or zero
prompt count falls back to 0 in the chat-mode normalizer and to
⌈prompt text/4⌉ (0 when no prompt text was supplied) in the generate-mode
normalizer; the total is always prompt + completion. -/
theorem c8_amended :
    (∀ (r : OllamaChatResponse) (p : Option Str),
       (∀ n, r.prompt_eval_count = some n → n ≠ 0 →
          (ollamaChatToGeminiResponse r p).usageMetadata.promptTokenCount = n) ∧
       (r.prompt_eval_count = none ∨ r.prompt_eval_count = some 0 →
          (ollamaChatToGeminiResponse r p).usageMetadata.promptTokenCount = 0) ∧
       (∀ n, r.eval_count = some n → n ≠ 0 →
          (ollamaChatToGeminiResponse r p).usageMetadata.candidatesTokenCount = n) ∧
       (r.eval_count = none ∨ r.eval_count = some 0 →
          (ollamaChatToGeminiResponse r p).usageMetadata.candidatesTokenCount =
            estimateTokenCount r.message.content) ∧
       (ollamaChatToGeminiResponse r p).usageMetadata.totalTokenCount =
         (ollamaChatToGeminiResponse r p).usageMetadata.promptTokenCount +
         (ollamaChatToGeminiResponse r p).usageMetadata.candidatesTokenCount) ∧
    (∀ (r : OllamaGenerateResponse) (p : Option Str),
       (∀ n, r.prompt_eval_count = some n → n ≠ 0 →
          (ollamaToGeminiResponse r p).usageMetadata.promptTokenCount = n) ∧
       (r.prompt_eval_count = none ∨ r.prompt_eval_count = some 0 →
          (ollamaToGeminiResponse r p).usageMetadata.promptTokenCount =
            (match p with | some t => estimateTokenCount t | none => 0)) ∧
       (∀ n, r.eval_count = some n → n ≠ 0 →
          (ollamaToGeminiResponse r p).usageMetadata.candidatesTokenCount = n) ∧
       (r.eval_count = none ∨ r.eval_count = some 0 →
          (ollamaToGeminiResponse r p).usageMetadata.candidatesTokenCount =
            estimateTokenCount r.response) ∧
       (ollamaToGeminiResponse r p).usageMetadata.totalTokenCount =
         (ollamaToGeminiResponse r p).usageMetadata.promptTokenCount +
         (ollamaToGeminiResponse r p).usageMetadata.candidatesTokenCount) := by
  constructor
  · intro r p
    refine ⟨?_, ?_, ?_, ?_, rfl⟩
    · intro n hn hnz; simp [ollamaChatToGeminiResponse, jsOrNat, hn, hnz]
    · rintro (hn | hn) <;> simp [ollamaChatToGeminiResponse, jsOrNat, hn]
    · intro n hn hnz; simp [ollamaChatToGeminiResponse, jsOrNat, hn, hnz]
    · rintro (hn | hn) <;> simp [ollamaChatToGeminiResponse, jsOrNat, hn]
  · intro r p
    refine ⟨?_, ?_, ?_, ?_, rfl⟩
    · intro n hn hnz; simp [ollamaToGeminiResponse, jsOrNat, hn, hnz]
    · rintro (hn | hn) <;> simp [ollamaToGeminiResponse, jsOrNat, hn]
    · intro n hn hnz; simp [ollamaToGeminiResponse, jsOrNat, hn, hnz]
    · rintro (hn | hn) <;> simp [ollamaToGeminiResponse, jsOrNat, hn]

/-- Witness for C8 amended at concrete responses. -/
theorem c8_amended_witness :
    (ollamaChatToGeminiResponse
      { message := { role := .assistant, content := chars "hi" }, done := true,
        prompt_eval_count := some 7, eval_count := none }
      none).usageMetadata.promptTokenCount = 7 ∧
    (ollamaToGeminiResponse
      { response := chars "hello", done := true }
      (some (chars "hello world"))).usageMetadata.candidatesTokenCount =
      estimateTokenCount (chars "hello") :=
  ⟨((c8_amended.1
      { message := { role := .assistant, content := chars "hi" }, done := true,
        prompt_eval_count := some 7, eval_count := none } none).1 7 rfl (by decide)),
   ((c8_amended.2 { response := chars "hello", done := true }
      (some (chars "hello world"))).2.2.2.1 (Or.inl rfl))⟩

/-- C7 counterexample: a model declaring a 71-billion-parameter size tier
(`parameter_size = "71b"`, unambiguously ≥ 70B), with no `context_length`
metadata key and no modelfile directive, resolves to 4096 — not the 32768
the claimed `≥70B` tier prescribes.  The code matches the fixed substrings
`70b`/`72b`, `13b`/`34b`, `7b`/`8b` only. -/
theorem c7_counterexample :
    extractContextLength
      ⟨[], [], some ⟨some (chars "71b")⟩⟩ = 4096 ∧
    (4096 : Int) ≠ 32768 := by
  refine ⟨rfl, by decide⟩

/-- C7 amended: the resolver is total (never raises, by construction), and
when the metadata scan and the modelfile directive both fail it falls back
to case-sensitive substring tests on the declared parameter size:
`70b`/`72b` → 32768, `13b`/`34b` → 16384, `7b`/`8b` → 8192, else 4096. -/
theorem c7_amended (mi : OllamaShowResponse)
    (h1 : contextFromModelInfo mi.model_info = none)
    (h2 : modelfileContextDirective mi = none) :
    extractContextLength mi =
      (if hasSubstr (declaredParameterSize mi) (chars "70b") ||
          hasSubstr (declaredParameterSize mi) (chars "72b") then 32768
       else if hasSubstr (declaredParameterSize mi) (chars "13b") ||
          hasSubstr (declaredParameterSize mi) (chars "34b") then 16384
       else if hasSubstr (declaredParameterSize mi) (chars "7b") ||
          hasSubstr (declaredParameterSize mi) (chars "8b") then 8192
       else 4096) := by
  simp [extractContextLength, h1, h2, parameterSizeTier]

/-- Witness for C7 amended: a 13B model with empty metadata resolves to
16384. -/
theorem c7_amended_witness :
    extractContextLength ⟨[], [], some ⟨some (chars "13b")⟩⟩ = 16384 :=
  (c7_amended ⟨[], [], some ⟨some (chars "13b")⟩⟩ rfl rfl).trans (by decide)

/-- C3 counterexample: a turn whose only part is a `functionResponse` with
an absent payload contributes no text, so `buildChatMessages` drops it
entirely — it is not translated to any backend message, in particular not to
a `tool`-role one as the claim requires. -/
theorem c3_counterexample :
    isToolResultTurn ⟨chars "user", some [.functionResponsePart none]⟩ = true ∧
    buildChatMessages [⟨chars "user", some [.functionResponsePart none]⟩] = [] := by
  refine ⟨rfl, rfl⟩

/-- C3 amended: a turn containing a tool-result part translates to a single
`tool`-role message exactly when its extracted text is nonempty after
trimming, and is dropped otherwise; it is never translated to a `user`-role
(or any non-`tool`) message. -/
theorem c3_amended (c : GeminiContent) (h : isToolResultTurn c = true) :
    (∀ m ∈ translateContent c, m.role = .tool) ∧
    ((jsTrim (turnText c)).isEmpty = true → translateContent c = []) ∧
    ((jsTrim (turnText c)).isEmpty = false →
      translateContent c = [{ role := .tool, content := jsTrim (turnText c) }]) := by
  cases hp : c.parts with
  | none => simp [isToolResultTurn, hp] at h
  | some parts =>
    have hfr : hasFunctionResponsePart parts = true := by
      simpa [isToolResultTurn, hp] using h
    have ht : turnText c = (parts.map partText).flatten := by
      simp [turnText, hp]
    by_cases he : (jsTrim ((parts.map partText).flatten)).isEmpty
    · refine ⟨?_, ?_, ?_⟩
      · intro m hm
        simp [translateContent, hp, hfr, he] at hm
      · intro _
        simp [translateContent, hp, hfr, he]
      · intro hne
        rw [ht] at hne
        exact absurd he (by simp [hne])
    · refine ⟨?_, ?_, ?_⟩
      · intro m hm
        simp [translateContent, hp, hfr, he] at hm
        rw [hm]
      · intro hee
        rw [ht] at hee
        exact absurd hee (by simp_all)
      · intro _
        simp [translateContent, hp, hfr, he, ht]

/-- Witness for C3 amended: a tool-result turn with payload `"ok"` becomes
exactly one `tool`-role message. -/
theorem c3_amended_witness :
    translateContent
        ⟨chars "user", some [.functionResponsePart (some (.str (chars "ok")))]⟩ =
      [{ role := .tool, content := chars "ok" }] := by
  have ht : jsTrim (turnText
      ⟨chars "user", some [.functionResponsePart (some (.str (chars "ok")))]⟩) =
      chars "ok" := by decide
  refine ((c3_amended ⟨chars "user", some [.functionResponsePart (some (.str (chars "ok")))]⟩
    rfl).2.2 (by decide)).trans ?_
  rw [ht]

/-- The greedy regular-line append never pushes the accumulated result past
90% of the budget once it is within it (each appended test length is checked
before committing). -/
theorem appendRecentRegular_le (maxSize : ℚ) (ls : List Str) :
    ∀ result : Str, (result.length : ℚ) ≤ maxSize * (9 / 10) →
      ((appendRecentRegular maxSize result ls).length : ℚ) ≤ maxSize * (9 / 10) := by
  induction ls with
  | nil => intro result h; exact h
  | cons l rest ih =>
    intro result h
    rw [appendRecentRegular]
    split
    · exact h
    · next hgt => exact ih _ (not_lt.mp hgt)

/-- C1 counterexample: an input of three short lines (total length 14,
budget 10) is classified entirely as "important" lines, so the rebuilt
result equals the input — over the limit and carrying no truncation
marker. -/
theorem c1_counterexample :
    ((chars "aaaa\nbbbb\ncccc").length : ℚ) > 10 ∧
    truncateContentForRequestSize (chars "aaaa\nbbbb\ncccc") 10 =
      chars "aaaa\nbbbb\ncccc" ∧
    ¬ (((truncateContentForRequestSize (chars "aaaa\nbbbb\ncccc") 10).length : ℚ) ≤ 10 ∧
       hasSubstr (truncateContentForRequestSize (chars "aaaa\nbbbb\ncccc") 10)
         truncationNotice = true) := by
  have heq : truncateContentForRequestSize (chars "aaaa\nbbbb\ncccc") 10 =
      chars "aaaa\nbbbb\ncccc" := by decide
  refine ⟨by norm_num [chars], heq, ?_⟩
  rintro ⟨hle, -⟩
  rw [heq] at hle
  norm_num [chars] at hle

/-- C1 amended: over the limit, the result length is bounded by the limit
and the truncation marker is present, provided the important lines alone fit
within 90% of the budget and the budget leaves the marker its 10% headroom
(without those provisos the important lines are copied in full, as the
counterexample shows). -/
theorem c1_amended (content : Str) (maxSize : ℚ)
    (hover : (content.length : ℚ) > maxSize)
    (himp : ((intercalateNl ((splitNl content).filter isImportantLine)).length : ℚ) ≤
      maxSize * (9 / 10))
    (hnotice : (truncationNotice.length : ℚ) * 10 ≤ maxSize) :
    ((truncateContentForRequestSize content maxSize).length : ℚ) ≤ maxSize ∧
    ∃ pre, truncateContentForRequestSize content maxSize = pre ++ truncationNotice := by
  have hnlen : (truncationNotice.length : ℚ) = 54 := by norm_num [truncationNotice, chars]
  have hmax : (540 : ℚ) ≤ maxSize := by rw [hnlen] at hnotice; linarith
  have hR : ((appendRecentRegular maxSize
      (intercalateNl ((splitNl content).filter isImportantLine))
      (takeLast 10 ((splitNl content).filter (fun l => !isImportantLine l)))).length : ℚ) ≤
      maxSize * (9 / 10) :=
    appendRecentRegular_le maxSize _ _ himp
  have hRlt : (appendRecentRegular maxSize
      (intercalateNl ((splitNl content).filter isImportantLine))
      (takeLast 10 ((splitNl content).filter (fun l => !isImportantLine l)))).length <
      content.length := by
    have : ((appendRecentRegular maxSize
        (intercalateNl ((splitNl content).filter isImportantLine))
        (takeLast 10 ((splitNl content).filter (fun l => !isImportantLine l)))).length : ℚ) <
        (content.length : ℚ) := by linarith
    exact_mod_cast this
  rw [truncateContentForRequestSize, if_neg (not_le.mpr hover)]
  simp only [hRlt, if_pos]
  constructor
  · rw [List.length_append]
    push_cast
    linarith
  · exact ⟨_, rfl⟩

set_option maxRecDepth 40000 in
/-- Witness for C1 amended: a single 541-character regular line against a
budget of 540 truncates to just the marker. -/
theorem c1_amended_witness :
    ((List.replicate 541 'a').length : ℚ) > 540 ∧
    ((truncateContentForRequestSize (List.replicate 541 'a') 540).length : ℚ) ≤ 540 ∧
    ∃ pre, truncateContentForRequestSize (List.replicate 541 'a') 540 =
      pre ++ truncationNotice := by
  have h := c1_amended (List.replicate 541 'a') 540 (by norm_num)
    (by norm_num [intercalateNl,
      show ((splitNl (List.replicate 541 'a')).filter isImportantLine) = [] from by decide])
    (by norm_num [truncationNotice, chars])
  exact ⟨by norm_num, h.1, h.2⟩

/-- Unfolding of one dedup step, phrased through `callSignature`. -/
theorem dedupAux_cons (seen : List Str) (tc : OllamaToolCall) (rest : List OllamaToolCall) :
    dedupToolCallsAux seen (tc :: rest) =
      if callSignature tc ∈ seen then dedupToolCallsAux seen rest
      else .functionCall tc.id tc.function.name (resolveToolArgs tc.function.arguments) ::
        dedupToolCallsAux (callSignature tc :: seen) rest := rfl

/-- Every part emitted by the dedup loop is a function-call part. -/
theorem dedupAux_part_shape (tcs : List OllamaToolCall) :
    ∀ (seen : List Str) (p : GeminiPart), p ∈ dedupToolCallsAux seen tcs →
      ∃ id name args, p = .functionCall id name args := by
  induction tcs with
  | nil => intro seen p hp; simp [dedupToolCallsAux] at hp
  | cons tc rest ih =>
    intro seen p hp
    simp only [dedupToolCallsAux] at hp
    split at hp
    · exact ih seen p hp
    · rcases List.mem_cons.mp hp with rfl | hmem
      · exact ⟨_, _, _, rfl⟩
      · exact ih _ p hmem

/-- A descriptor whose signature is not yet seen is represented among the
emitted parts. -/
theorem dedupAux_sig_mem (tcs : List OllamaToolCall) :
    ∀ (seen : List Str) (tc : OllamaToolCall), tc ∈ tcs → callSignature tc ∉ seen →
      ∃ p ∈ dedupToolCallsAux seen tcs, partSignature p = some (callSignature tc) := by
  induction tcs with
  | nil => intro seen tc htc _; simp at htc
  | cons tc' rest ih =>
    intro seen tc htc hns
    by_cases hs : callSignature tc' ∈ seen
    · have hrw : dedupToolCallsAux seen (tc' :: rest) = dedupToolCallsAux seen rest := by
        rw [dedupAux_cons, if_pos hs]
      rcases List.mem_cons.mp htc with rfl | hmem
      · exact absurd hs hns
      · rw [hrw]; exact ih seen tc hmem hns
    · have hrw : dedupToolCallsAux seen (tc' :: rest) =
          .functionCall tc'.id tc'.function.name (resolveToolArgs tc'.function.arguments) ::
            dedupToolCallsAux (callSignature tc' :: seen) rest := by
        rw [dedupAux_cons, if_neg hs]
      by_cases heq : callSignature tc = callSignature tc'
      · refine ⟨_, by rw [hrw]; exact List.mem_cons_self _ _, ?_⟩
        rw [heq]; rfl
      · rcases List.mem_cons.mp htc with rfl | hmem
        · exact absurd rfl heq
        · obtain ⟨p, hp, hps⟩ := ih (callSignature tc' :: seen) tc hmem
            (by simp [List.mem_cons, heq, hns])
          exact ⟨p, by rw [hrw]; exact List.mem_cons_of_mem _ hp, hps⟩

/-- The signatures of the emitted parts are pairwise distinct and disjoint
from the already-seen set. -/
theorem dedupAux_sigs_nodup (tcs : List OllamaToolCall) :
    ∀ seen : List Str,
      ((dedupToolCallsAux seen tcs).filterMap partSignature).Nodup ∧
      ∀ s ∈ (dedupToolCallsAux seen tcs).filterMap partSignature, s ∉ seen := by
  induction tcs with
  | nil => intro seen; simp [dedupToolCallsAux]
  | cons tc rest ih =>
    intro seen
    by_cases hs : callSignature tc ∈ seen
    · have hrw : dedupToolCallsAux seen (tc :: rest) = dedupToolCallsAux seen rest := by
        rw [dedupAux_cons, if_pos hs]
      rw [hrw]; exact ih seen
    · have hrw : dedupToolCallsAux seen (tc :: rest) =
          .functionCall tc.id tc.function.name (resolveToolArgs tc.function.arguments) ::
            dedupToolCallsAux (callSignature tc :: seen) rest := by
        rw [dedupAux_cons, if_neg hs]
      obtain ⟨hnd, hni⟩ := ih (callSignature tc :: seen)
      rw [hrw]
      have hhead : partSignature
          (.functionCall tc.id tc.function.name (resolveToolArgs tc.function.arguments)) =
          some (callSignature tc) := rfl
      constructor
      · rw [List.filterMap_cons, hhead]
        refine List.nodup_cons.mpr ⟨fun hmem => ?_, hnd⟩
        exact (hni _ hmem) (List.mem_cons_self _ _)
      · intro s hsm
        rw [List.filterMap_cons, hhead] at hsm
        rcases List.mem_cons.mp hsm with rfl | hmem
        · exact hs
        · exact fun hin => (hni _ hmem) (List.mem_cons_of_mem _ hin)

/-- In a duplicate-free list, exactly one element equals a member. -/
theorem filter_eq_singleton_of_nodup {α : Type} [DecidableEq α] {l : List α} {a : α}
    (hnd : l.Nodup) (ha : a ∈ l) : (l.filter (fun x => x = a)).length = 1 := by
  induction l with
  | nil => simp at ha
  | cons b rest ih =>
    rw [List.nodup_cons] at hnd
    rcases List.mem_cons.mp ha with rfl | hmem
    · have hnone : rest.filter (fun x => x = a) = [] := by
        refine List.filter_eq_nil_iff.mpr fun x hx => ?_
        simp only [decide_eq_true_eq]
        intro hxa
        exact hnd.1 (hxa ▸ hx)
      simp [List.filter_cons, hnone]
    · have hba : ¬(b = a) := fun h => hnd.1 (h ▸ hmem)
      simp [List.filter_cons, hba, ih hnd.2 hmem]

/-- On a list of parts that all carry a signature, filtering the parts by a
signature matches filtering the signature list. -/
theorem filter_sig_length (s : Str) (parts : List GeminiPart) :
    (∀ p ∈ parts, (partSignature p).isSome = true) →
    (parts.filter (fun p => partSignature p = some s)).length =
      ((parts.filterMap partSignature).filter (fun x => x = s)).length := by
  induction parts with
  | nil => intro _; rfl
  | cons p rest ih =>
    intro h
    obtain ⟨v, hv⟩ := Option.isSome_iff_exists.mp (h p (List.mem_cons_self _ _))
    have hrest := ih fun q hq => h q (List.mem_cons_of_mem _ hq)
    by_cases hps : partSignature p = some s
    · have hvs : v = s := by
        rw [hps] at hv
        exact (Option.some.inj hv).symm
      subst hvs
      simp [List.filter_cons, hps, List.filterMap_cons, hv, hrest]
    · have hvs : ¬(v = s) := fun hh => hps (by rw [hv, hh])
      simp [List.filter_cons, hps, List.filterMap_cons, hv, hrest, hvs]

/-- C2 counterexample: two tool-call descriptors with the same function
name and arguments that are equal as unordered key-value maps (a
permutation of the field list) but serialized in different key orders are
NOT deduplicated: the normalized response carries two tool-call parts, not
the claimed single one.  The signature uses `JSON.stringify`, which is
key-order-sensitive. -/
theorem c2_counterexample :
    [(chars "b", JsonValue.num 2), (chars "a", JsonValue.num 1)].Perm
      [(chars "a", JsonValue.num 1), (chars "b", JsonValue.num 2)] ∧
    countFunctionCallParts (ollamaChatToGeminiResponse
      ⟨⟨.assistant, [],
        some [⟨none, ⟨chars "f", .argObj [(chars "a", .num 1), (chars "b", .num 2)]⟩⟩,
              ⟨none, ⟨chars "f", .argObj [(chars "b", .num 2), (chars "a", .num 1)]⟩⟩]⟩,
       true, none, none, none⟩ none) = 2 :=
  ⟨List.Perm.swap _ _ _, by decide⟩

/-- C2 amended: deduplication is by exact signature — function name plus the
key-order-sensitive `JSON.stringify` of the resolved arguments (string-form
arguments being parsed first).  Two descriptors in one response with the
same name and the same canonical argument serialization yield exactly one
tool-call part for that signature. -/
theorem c2_amended (r : OllamaChatResponse) (p : Option Str) (tcs : List OllamaToolCall)
    (htcs : effectiveToolCalls r = some tcs) (tc1 tc2 : OllamaToolCall)
    (h1 : tc1 ∈ tcs) (_h2 : tc2 ∈ tcs)
    (_hname : tc1.function.name = tc2.function.name)
    (_hsig : callSignature tc1 = callSignature tc2) :
    (partsWithSignature (ollamaChatToGeminiResponse r p) (callSignature tc1)).length = 1 := by
  have hparts : partsWithSignature (ollamaChatToGeminiResponse r p) (callSignature tc1) =
      ((if !r.message.content.isEmpty then [GeminiPart.text r.message.content] else []) ++
        dedupToolCalls tcs).filter (fun q => partSignature q = some (callSignature tc1)) := by
    simp [partsWithSignature, ollamaChatToGeminiResponse, htcs]
  rw [hparts, List.filter_append, List.length_append]
  have htext : ((if !r.message.content.isEmpty then [GeminiPart.text r.message.content]
      else []).filter (fun q => partSignature q = some (callSignature tc1))).length = 0 := by
    split <;> simp [partSignature]
  rw [htext, Nat.zero_add]
  have hshape : ∀ q ∈ dedupToolCalls tcs, (partSignature q).isSome = true := by
    intro q hq
    obtain ⟨id, name, args, rfl⟩ := dedupAux_part_shape tcs [] q hq
    rfl
  rw [filter_sig_length _ _ hshape]
  obtain ⟨q, hq, hqs⟩ := dedupAux_sig_mem tcs [] tc1 h1 (by simp)
  exact filter_eq_singleton_of_nodup (dedupAux_sigs_nodup tcs []).1
    (List.mem_filterMap.mpr ⟨q, hq, hqs⟩)

/-- Witness for C2 amended: the same call given once with object-form and
once with string-form arguments (same key order) collapses to one part. -/
theorem c2_amended_witness :
    callSignature ⟨none, ⟨chars "g", .argObj [(chars "x", .num 1)]⟩⟩ =
      callSignature ⟨none, ⟨chars "g", .argStr (chars "\x7b\"x\":1\x7d")⟩⟩ ∧
    (partsWithSignature
      (ollamaChatToGeminiResponse
        ⟨⟨.assistant, [],
          some [⟨none, ⟨chars "g", .argObj [(chars "x", .num 1)]⟩⟩,
                ⟨none, ⟨chars "g", .argStr (chars "\x7b\"x\":1\x7d")⟩⟩]⟩,
         true, none, none, none⟩ none)
      (callSignature ⟨none, ⟨chars "g", .argObj [(chars "x", .num 1)]⟩⟩)).length = 1 := by
  refine ⟨by decide, ?_⟩
  exact c2_amended
    ⟨⟨.assistant, [],
      some [⟨none, ⟨chars "g", .argObj [(chars "x", .num 1)]⟩⟩,
            ⟨none, ⟨chars "g", .argStr (chars "\x7b\"x\":1\x7d")⟩⟩]⟩,
     true, none, none, none⟩ none
    [⟨none, ⟨chars "g", .argObj [(chars "x", .num 1)]⟩⟩,
     ⟨none, ⟨chars "g", .argStr (chars "\x7b\"x\":1\x7d")⟩⟩] rfl
    ⟨none, ⟨chars "g", .argObj [(chars "x", .num 1)]⟩⟩
    ⟨none, ⟨chars "g", .argStr (chars "\x7b\"x\":1\x7d")⟩⟩
    (List.mem_cons_self _ _) (List.mem_cons_of_mem _ (List.mem_cons_self _ _))
    rfl (by decide)

/-- A streamed event built from a record with nonempty text and no tool
calls carries exactly that record's fragment. -/
theorem event_text_eq (r : OllamaGenerateResponse) (p : Str)
    (h : r.response.isEmpty = false) (hc : r.tool_calls = none) :
    candidateText (setFirstTextPart (ollamaToGeminiResponse r (some p)) r.response) =
      r.response := by
  simp [ollamaToGeminiResponse, setFirstTextPart, candidateText, h, hc]

/-- The streamed events for a synthetic fragment list carry exactly the
nonempty fragments, in order. -/
theorem streamEvents_texts (p : Str) (fs : List Str) :
    (generateStreamEvents p (mkStreamRecords fs)).map candidateText =
      fs.filter (fun f => !f.isEmpty) := by
  induction fs with
  | nil => rfl
  | cons f rest ih =>
    cases rest with
    | nil =>
      by_cases hf : f.isEmpty
      · simp [mkStreamRecords, generateStreamEvents, hf, List.filter_cons]
      · have he := event_text_eq ⟨f, true, none, none, none⟩ p (by simpa using hf) rfl
        simp [mkStreamRecords, generateStreamEvents, hf, List.filter_cons, he]
    | cons f' rest' =>
      by_cases hf : f.isEmpty
      · simp only [mkStreamRecords, generateStreamEvents] at ih ⊢
        simp [hf, List.filter_cons, ih]
      · have he := event_text_eq ⟨f, false, none, none, none⟩ p (by simpa using hf) rfl
        simp only [mkStreamRecords, generateStreamEvents] at ih ⊢
        simp [hf, List.filter_cons, ih, he]

/-- Dropping the empty fragments does not change the concatenation. -/
theorem flatten_filter_nonempty {α : Type} (fs : List (List α)) :
    (fs.filter (fun f => !f.isEmpty)).flatten = fs.flatten := by
  induction fs with
  | nil => rfl
  | cons f rest ih =>
    by_cases hf : f.isEmpty
    · have hnil : f = [] := List.isEmpty_iff.mp hf
      simp [List.filter_cons, hf, hnil, ih]
    · simp [List.filter_cons, hf, ih]

/-- C4: for every synthetic backend output, the non-streaming path returns a
response whose text equals the concatenation of the incremental text deltas
of the streamed events for the same output — and each streamed event carries
exactly its own record's fragment, never the cumulative text. -/
theorem c4_stream_matches_buffered (fragments : List Str) (prompt : Str)
    (h : (jsTrim (mkBufferedRecord fragments).response).isEmpty = false) :
    callGenerateAPIResult (mkBufferedRecord fragments) prompt =
      .ok (ollamaToGeminiResponse (mkBufferedRecord fragments) (some prompt)) ∧
    candidateText (ollamaToGeminiResponse (mkBufferedRecord fragments) (some prompt)) =
      fragments.flatten ∧
    ((generateStreamEvents prompt (mkStreamRecords fragments)).map candidateText).flatten =
      fragments.flatten ∧
    (generateStreamEvents prompt (mkStreamRecords fragments)).map candidateText =
      fragments.filter (fun f => !f.isEmpty) := by
  have hne : (mkBufferedRecord fragments).response.isEmpty = false := by
    cases he : (mkBufferedRecord fragments).response.isEmpty
    · rfl
    · rw [List.isEmpty_iff.mp he] at h
      exact absurd h (by decide)
  refine ⟨?_, ?_, ?_, streamEvents_texts prompt fragments⟩
  · rw [callGenerateAPIResult, if_neg]
    simp [h]
  · simp only [ollamaToGeminiResponse]
    rw [hne]
    simp [candidateText, mkBufferedRecord]
  · rw [streamEvents_texts]
    exact flatten_filter_nonempty fragments

/-- Witness for C4 at the two-fragment output `"he"`,`"llo"`. -/
theorem c4_stream_matches_buffered_witness :
    ((generateStreamEvents (chars "p") (mkStreamRecords [chars "he", chars "llo"])).map
      candidateText).flatten = chars "hello" ∧
    (generateStreamEvents (chars "p") (mkStreamRecords [chars "he", chars "llo"])).map
      candidateText = [chars "he", chars "llo"] :=
  ⟨((c4_stream_matches_buffered [chars "he", chars "llo"] (chars "p")
      (by decide)).2.2.1).trans (by decide),
   ((c4_stream_matches_buffered [chars "he", chars "llo"] (chars "p")
      (by decide)).2.2.2).trans (by decide)⟩

/-- `splitNl` always returns at least one piece. -/
theorem splitNl_ne_nil (s : Str) : splitNl s ≠ [] := by
  induction s with
  | nil => simp [splitNl]
  | cons c rest ih =>
    simp only [splitNl]
    split
    · simp
    · cases hr : splitNl rest with
      | nil => simp
      | cons h t => simp

/-- A newline-free string splits into itself. -/
theorem splitNl_of_nlFree {l : Str} (h : nlFree l = true) : splitNl l = [l] := by
  induction l with
  | nil => rfl
  | cons c rest ih =>
    rw [nlFree, List.all_cons, Bool.and_eq_true] at h
    have hcn : ¬(c = '\n') := by simpa using h.1
    have hr := ih h.2
    simp [splitNl, hcn, hr]

/-- Splitting a newline-terminated line off the front. -/
theorem splitNl_append_line (l : Str) (t : Str) (h : nlFree l = true) :
    splitNl (l ++ '\n' :: t) = l :: splitNl t := by
  induction l with
  | nil => simp [splitNl]
  | cons c rest ih =>
    rw [nlFree, List.all_cons, Bool.and_eq_true] at h
    have hcn : ¬(c = '\n') := by simpa using h.1
    have hr := ih h.2
    simp only [List.cons_append, splitNl, if_neg hcn, List.append_eq, hr]

/-- Splitting a block of newline-terminated lines recovers the lines and
continues into the remainder. -/
theorem splitNl_join (ls : List Str) (t : Str) (h : ∀ l ∈ ls, nlFree l = true) :
    splitNl ((ls.map (fun l => l ++ ['\n'])).flatten ++ t) = ls ++ splitNl t := by
  induction ls with
  | nil => simp
  | cons l rest ih =>
    have h1 : nlFree l = true := h l (List.mem_cons_self _ _)
    have h2 : ∀ l' ∈ rest, nlFree l' = true := fun l' hl' => h l' (List.mem_cons_of_mem _ hl')
    have hshape : ((l :: rest).map (fun l => l ++ ['\n'])).flatten ++ t =
        l ++ '\n' :: ((rest.map (fun l => l ++ ['\n'])).flatten ++ t) := by
      simp
    rw [hshape, splitNl_append_line l _ h1, ih h2, List.cons_append]

/-- Any prefix of an NDJSON-framed block of lines consists of finitely many
whole newline-terminated lines followed by a newline-free partial line. -/
theorem ndjson_prefix_decomp (ls : List Str) :
    ∀ (P Q : Str), (∀ l ∈ ls, nlFree l = true) →
    P ++ Q = (ls.map (fun l => l ++ ['\n'])).flatten →
    ∃ k partialLine, k ≤ ls.length ∧
      P = ((ls.take k).map (fun l => l ++ ['\n'])).flatten ++ partialLine ∧
      nlFree partialLine = true ∧
      partialLine ++ Q = ((ls.drop k).map (fun l => l ++ ['\n'])).flatten := by
  induction ls with
  | nil =>
    intro P Q _ heq
    simp only [List.map_nil, List.flatten_nil, List.append_eq_nil] at heq
    exact ⟨0, [], by simp, by simp [heq.1], rfl, by simp [heq.2]⟩
  | cons l rest ih =>
    intro P Q h heq
    have h1 : nlFree l = true := h l (List.mem_cons_self _ _)
    have h2 : ∀ l' ∈ rest, nlFree l' = true := fun l' hl' => h l' (List.mem_cons_of_mem _ hl')
    rw [List.map_cons, List.flatten_cons] at heq
    rcases List.append_eq_append_iff.mp heq with ⟨a', hc, _⟩ | ⟨c', hcP, hcflat⟩
    · by_cases hlen : P.length ≤ l.length
      · have hpre : P <+: l :=
          List.prefix_of_prefix_length_le ⟨a', hc.symm⟩ ⟨['\n'], rfl⟩ hlen
        refine ⟨0, P, Nat.zero_le _, by simp, ?_, by simpa using heq⟩
        rw [nlFree, List.all_eq_true] at h1 ⊢
        exact fun ch hch => h1 ch (hpre.subset hch)
      · have hlens := congrArg List.length hc
        simp only [List.length_append, List.length_cons, List.length_nil] at hlens
        have ha' : a' = [] := List.length_eq_zero.mp (by omega)
        rw [ha', List.append_nil] at hc
        rw [hc] at heq
        have hQ : Q = (rest.map (fun l => l ++ ['\n'])).flatten :=
          List.append_cancel_left heq
        refine ⟨1, [], by simp, by simp [← hc], rfl, ?_⟩
        simpa using hQ
    · obtain ⟨k, partialLine, hk, hP', hpf, hrest⟩ := ih c' Q h2 hcflat.symm
      refine ⟨k + 1, partialLine, by simpa using Nat.succ_le_succ hk, ?_, hpf, ?_⟩
      · rw [hcP, hP']
        simp [List.take_succ_cons]
      · simpa [List.drop_succ_cons] using hrest

/-- One batch of complete lines, none of which (except possibly the last)
decodes to a `done` record, is processed in full: blank lines skipped,
unparsable lines skipped, parsed records emitted in order. -/
theorem processBatch_eq_filterMap (lines : List Str)
    (h : ∀ l ∈ lines.dropLast, notDoneLine l) :
    processBatch lines = lines.filterMap parseNonBlankLine := by
  induction lines with
  | nil => rfl
  | cons l rest ih =>
    cases rest with
    | nil =>
      rw [processBatch]
      cases hnb : hasNonWs l
      · simp [List.filterMap_cons, parseNonBlankLine, hnb, processBatch]
      · cases hp : parseStreamLine l with
        | none => simp [List.filterMap_cons, parseNonBlankLine, hnb, hp, processBatch]
        | some r =>
          cases hd : r.done <;>
            simp [List.filterMap_cons, parseNonBlankLine, hnb, hp, hd, processBatch]
    | cons l2 rest2 =>
      have hdl : (l :: l2 :: rest2).dropLast = l :: (l2 :: rest2).dropLast := by
        simp
      have hl : notDoneLine l := h l (by rw [hdl]; exact List.mem_cons_self _ _)
      have h2 : ∀ x ∈ (l2 :: rest2).dropLast, notDoneLine x := fun x hx =>
        h x (by rw [hdl]; exact List.mem_cons_of_mem _ hx)
      rw [processBatch]
      cases hnb : hasNonWs l
      · simp [List.filterMap_cons, parseNonBlankLine, hnb, ih h2]
      · cases hp : parseStreamLine l with
        | none => simp [List.filterMap_cons, parseNonBlankLine, hnb, hp, ih h2]
        | some r =>
          have hdone : r.done = false := hl r (by simp [parseNonBlankLine, hnb, hp])
          simp [List.filterMap_cons, parseNonBlankLine, hnb, hp, hdone, ih h2]

/-- Dropping the last element of a take keeps one inside the original's
drop-last. -/
theorem mem_dropLast_take {α : Type} (a : α) : ∀ (ls : List α) (k : Nat),
    a ∈ (ls.take k).dropLast → a ∈ ls.dropLast := by
  intro ls
  induction ls with
  | nil => intro k h; simp at h
  | cons b tl ih =>
    intro k h
    cases k with
    | zero => simp at h
    | succ k' =>
      rw [List.take_succ_cons] at h
      cases htl : tl.take k' with
      | nil => rw [htl] at h; simp at h
      | cons x xs =>
        rw [htl, List.dropLast_cons₂] at h
        have htlne : tl ≠ [] := by
          intro hh
          rw [hh] at htl
          simp at htl
        obtain ⟨y, ys, rfl⟩ := List.exists_cons_of_ne_nil htlne
        rw [List.dropLast_cons₂]
        rcases List.mem_cons.mp h with rfl | hmem
        · exact List.mem_cons_self _ _
        · have h2 := ih k' (by rw [htl]; exact hmem)
          exact List.mem_cons_of_mem _ h2

/-- Dropping the last element of a drop keeps one inside the original's
drop-last. -/
theorem mem_dropLast_drop {α : Type} (a : α) : ∀ (k : Nat) (ls : List α),
    a ∈ (ls.drop k).dropLast → a ∈ ls.dropLast := by
  intro k
  induction k with
  | zero => intro ls h; simpa using h
  | succ k' ih =>
    intro ls h
    cases ls with
    | nil => simp at h
    | cons b tl =>
      rw [List.drop_succ_cons] at h
      have h2 := ih tl h
      cases tl with
      | nil => simp at h2
      | cons y ys =>
        rw [List.dropLast_cons₂]
        exact List.mem_cons_of_mem _ h2

/-- The decoder's read loop, from an arbitrary newline-free buffer state:
when the remaining bytes form whole newline-terminated lines of which none
before the last decodes to a `done` record, every line is processed exactly
once, in order, regardless of how the bytes are chunked. -/
theorem drainChunks_spec : ∀ (chunks : List Str) (ls : List Str) (buffer : Str),
    (∀ l ∈ ls, nlFree l = true) →
    (∀ l ∈ ls.dropLast, notDoneLine l) →
    nlFree buffer = true →
    buffer ++ chunks.flatten = (ls.map (fun l => l ++ ['\n'])).flatten →
    drainChunks buffer chunks = ls.filterMap parseNonBlankLine := by
  intro chunks
  induction chunks with
  | nil =>
    intro ls buffer hnl hdone hbuf heq
    cases ls with
    | nil => simp [drainChunks]
    | cons l rest =>
      exfalso
      rw [List.flatten_nil, List.append_nil] at heq
      have hmem : '\n' ∈ buffer := by
        rw [heq]
        simp
      rw [nlFree, List.all_eq_true] at hbuf
      simpa using hbuf '\n' hmem
  | cons c cs ih =>
    intro ls buffer hnl hdone hbuf heq
    rw [drainChunks]
    have heq' : (buffer ++ c) ++ cs.flatten = (ls.map (fun l => l ++ ['\n'])).flatten := by
      rw [List.append_assoc]
      simpa using heq
    obtain ⟨k, partialLine, hk, hP, hpf, hrest⟩ :=
      ndjson_prefix_decomp ls (buffer ++ c) cs.flatten hnl heq'
    have hsplit : splitNl (buffer ++ c) = ls.take k ++ [partialLine] := by
      rw [hP, splitNl_join (ls.take k) partialLine
        (fun l hl => hnl l (List.mem_of_mem_take hl)), splitNl_of_nlFree hpf]
    rw [hsplit]
    have hdrop : (ls.take k ++ [partialLine]).dropLast = ls.take k := by
      rw [List.dropLast_concat]
    have hlast : (ls.take k ++ [partialLine]).getLast? = some partialLine := by
      rw [List.getLast?_concat]
    rw [hdrop, hlast, Option.getD_some]
    rw [processBatch_eq_filterMap (ls.take k)
      (fun l hl => hdone l (mem_dropLast_take l ls k hl))]
    rw [ih (ls.drop k) partialLine (fun l hl => hnl l (List.mem_of_mem_drop hl))
      (fun l hl => hdone l (mem_dropLast_drop l k ls hl)) hpf hrest]
    rw [← List.filterMap_append, List.take_append_drop]

/-- C5 counterexample: a two-record NDJSON stream whose first record carries
`done: true` decodes to ONE record when both lines arrive in a single chunk
(the `done` break skips the rest of the batch) but to TWO records when each
line arrives in its own chunk — the number of parsed records depends on the
chunk boundaries, contradicting the claim. -/
theorem c5_counterexample :
    parseStreamLine (chars "\x7b\"done\":true\x7d") = some ⟨[], true⟩ ∧
    parseStreamLine (chars "\x7b\"response\":\"x\"\x7d") = some ⟨chars "x", false⟩ ∧
    (decodeGenerateStream
      [chars "\x7b\"done\":true\x7d\n\x7b\"response\":\"x\"\x7d\n"]).length = 1 ∧
    (decodeGenerateStream
      [chars "\x7b\"done\":true\x7d\n", chars "\x7b\"response\":\"x\"\x7d\n"]).length = 2 := by
  refine ⟨by decide, by decide, by decide, by decide⟩

/-- C5 amended: provided no line before the last decodes to a record with
the `done` flag set, the decoder yields exactly the parsed records of the
parsable non-blank lines, in order, for EVERY chunking of the byte stream
(including chunks that split a line mid-way); an unparsable line is skipped
without terminating the stream. -/
theorem c5_amended (lines chunks : List Str)
    (hnl : ∀ l ∈ lines, nlFree l = true)
    (hdone : ∀ l ∈ lines.dropLast, notDoneLine l)
    (hchunks : chunks.flatten = (lines.map (fun l => l ++ ['\n'])).flatten) :
    decodeGenerateStream chunks = lines.filterMap parseNonBlankLine :=
  drainChunks_spec chunks lines [] hnl hdone rfl (by simpa using hchunks)

/-- Witness for C5 amended: two records split across chunks mid-line decode
to exactly the two records in order. -/
theorem c5_amended_witness :
    decodeGenerateStream
      [chars "\x7b\"response\":\"a\"\x7d\n\x7b\"resp",
       chars "onse\":\"b\",\"done\":true\x7d\n"] =
      [⟨chars "a", false⟩, ⟨chars "b", true⟩] := by
  have h := c5_amended
    [chars "\x7b\"response\":\"a\"\x7d", chars "\x7b\"response\":\"b\",\"done\":true\x7d"]
    [chars "\x7b\"response\":\"a\"\x7d\n\x7b\"resp",
     chars "onse\":\"b\",\"done\":true\x7d\n"]
    (by decide)
    (by
      intro l hl
      have hll : l = chars "\x7b\"response\":\"a\"\x7d" := by
        simpa using hl
      subst hll
      intro r hr
      have hpl : parseNonBlankLine (chars "\x7b\"response\":\"a\"\x7d") =
          some ⟨chars "a", false⟩ := by decide
      rw [hpl] at hr
      cases hr
      rfl)
    (by decide)
  exact h.trans (by decide)

end OllamaAdapter
